import Mathlib

/-!
Verification development for the youtube-transcript-api repository
(src/youtube_transcript_api/_api.py).

Python strings are embedded as `List Char`.  Operations used by the code
(`str.split`, `str.find`, slicing with a possibly negative index,
`str.replace`, substring tests with `in`, `min` with a key function, the
two regular-expression substitutions) are translated into executable Lean
functions below, each faithful to the Python semantics.  Network I/O and
the XML parsing capability are oracles supplied as arguments; the
exception-based control flow is embedded with `Except`.
-/

namespace YTA

/-- Internal (Python-level) exception kinds that can occur inside
`get_transcript` before the facade collapses them. -/
inductive PyError where
  | network
  | typeError
  | keyError
  | valueError
  | xmlError
deriving DecidableEq

/-- The single external-facing error of the facade,
`YouTubeTranscriptApi.CouldNotRetrieveTranscript`, carrying the video id
(`self.video_id = video_id` in its constructor). -/
inductive DomainError where
  | couldNotRetrieveTranscript (video_id : List Char)
deriving DecidableEq

/-- Python `needle in hay` substring test on strings. -/
def containsL (needle : List Char) : List Char → Bool
  | [] => needle.isEmpty
  | c :: rest => needle.isPrefixOf (c :: rest) || containsL needle rest

/-- Index of the first occurrence of a character, if any. -/
def charIndex : List Char → Char → Option Nat
  | [], _ => none
  | c :: rest, q => if c = q then some 0 else (charIndex rest q).map (· + 1)

/-- Python `s.find(c)`: index of the first occurrence, `-1` if absent. -/
def pyFind (l : List Char) (q : Char) : Int :=
  match charIndex l q with
  | some i => (i : Int)
  | none => -1

/-- Python slice `s[:i]` for an arbitrary (possibly negative) bound:
a negative bound counts from the end, clamped at zero. -/
def pySliceTo (l : List Char) (i : Int) : List Char :=
  if i < 0 then l.take ((l.length : Int) + i).toNat else l.take i.toNat

/-- The code's `split[:split.find('"')]`. -/
def pyTruncQuote (l : List Char) : List Char :=
  pySliceTo l (pyFind l '"')

/-- Python `s.split(sep)` for a non-empty separator, fuelled so that it
computes by kernel reduction; `splitOnL` supplies fuel `hay.length`,
which is always sufficient. -/
def splitFuel (sep : List Char) : Nat → List Char → List Char → List (List Char)
  | _, [], acc => [acc.reverse]
  | 0, hay, acc => [acc.reverse ++ hay]
  | fuel + 1, c :: rest, acc =>
    if sep.isPrefixOf (c :: rest) then
      acc.reverse :: splitFuel sep fuel (rest.drop (sep.length - 1)) []
    else
      splitFuel sep fuel rest (c :: acc)

/-- Python `hay.split(sep)` (non-empty `sep`). -/
def splitOnL (sep hay : List Char) : List (List Char) :=
  splitFuel sep hay.length hay []

/-- Python `s.replace(pat, repl)` (non-empty `pat`): split and re-join. -/
def pyReplace (pat repl s : List Char) : List Char :=
  List.intercalate repl (splitOnL pat s)

/-- The marker `_TranscriptFetcher.TIMEDTEXT_STRING = 'timedtext?v='`. -/
def TIMEDTEXT : List Char := "timedtext?v=".data

/-- The six-character Python literal `'\\u0026'` (backslash, u, 0, 0, 2, 6). -/
def U0026 : List Char := ['\\', 'u', '0', '0', '2', '6']

/-- Decoding applied to each chunk of the split in `fetch`:
`split[:split.find('"')].replace('\\u0026', '&').replace('\\', '')`. -/
def decodeSplit (l : List Char) : List Char :=
  (pyReplace U0026 ['&'] (pyTruncQuote l)).filter (fun c => c ≠ '\\')

/-- The list `timedtext_splits` built in `_TranscriptFetcher.fetch`: every
chunk of `fetched_site.split(TIMEDTEXT_STRING)` is decoded, the leading
chunk included. -/
def timedtextSplits (site : List Char) : List (List Char) :=
  (splitOnL TIMEDTEXT site).map decodeSplit

/-- The literal `'&lang='` prefix that `'&lang={}'.format(language)` builds. -/
def LANG_MARK : List Char := "&lang=".data

/-- The membership test `'&lang={}'.format(language) in split`. -/
def langMatches (language frag : List Char) : Bool :=
  containsL (LANG_MARK ++ language) frag

/-- The language loop of `fetch`: for each language in priority order,
filter the decoded fragments; stop at the first language with at least one
match; if no language matches, the result is the empty list. -/
def findMatches : List (List Char) → List (List Char) → List (List Char)
  | [], _ => []
  | lang :: rest, frags =>
    let m := frags.filter (langMatches lang)
    if m.isEmpty then findMatches rest frags else m

/-- Index of the first `'&'` reachable without crossing a newline
(`.` in the Python regex does not match a newline). -/
def findAmpIdx : List Char → Option Nat
  | [] => none
  | c :: rest =>
    if c = '&' then some 0
    else if c = '\n' then none
    else (findAmpIdx rest).map (· + 1)

/-- Fuelled body of the substitution
`re.sub(r'&name=.*?(&)|&name=.*', r'\1', s)` used by `_sort_splits`:
a match `&name=...&` (lazy, no newline crossed) is replaced by `&`; a
match `&name=...` with no reachable `&` is replaced by the empty string
(the unmatched group substitutes as empty); scanning resumes after each
match. -/
def nameSubFuel : Nat → List Char → List Char
  | _, [] => []
  | 0, l => l
  | fuel + 1, c :: rest =>
    if ['&', 'n', 'a', 'm', 'e', '='].isPrefixOf (c :: rest) then
      match findAmpIdx (rest.drop 5) with
      | some k => '&' :: nameSubFuel fuel ((rest.drop 5).drop (k + 1))
      | none => nameSubFuel fuel ((rest.drop 5).dropWhile (fun ch => ch ≠ '\n'))
    else c :: nameSubFuel fuel rest

/-- The `NAME_REGEX` substitution of `_sort_splits`. -/
def nameSub (l : List Char) : List Char :=
  nameSubFuel l.length l

/-- The key of `_TranscriptFetcher._sort_splits`:
`len(re.sub(NAME_REGEX, r'\1', matched_split))`. -/
def sortKey (l : List Char) : Nat :=
  (nameSub l).length

/-- Python `min(xs, key=f)` seeded fold: keeps the current best and
replaces it only on a strictly smaller key, so the first minimum wins. -/
def minFold (key : List Char → Nat) (x : List Char) (xs : List (List Char)) : List Char :=
  xs.foldl (fun best y => if key y < key best then y else best) x

/-- Python `min(xs, key=f)` on a possibly empty list. -/
def minByKey (key : List Char → Nat) : List (List Char) → Option (List Char)
  | [] => none
  | x :: xs => some (minFold key x xs)

deriving instance DecidableEq for Except

/-- Outcome of `_TranscriptFetcher.fetch`, instrumented with the fragment
the second (timed-text API) request was issued for, if any. -/
structure FetchOut where
  result : Except PyError (Option (List Char))
  apiRequest : Option (List Char)
deriving DecidableEq

/-- The body of `_TranscriptFetcher.fetch`.  `watchPage` is the outcome of
the first HTTP GET (the watch page); `apiResp` maps a selected fragment to
the outcome of the second HTTP GET (`_execute_api_request(...).text`).
If no fragment matches any requested language, the fetch returns `None`
without a second request; if the second response body is empty (falsy),
the fetch returns `None`; otherwise it returns the body. -/
def fetch (languages : List (List Char)) (watchPage : Except PyError (List Char))
    (apiResp : List Char → Except PyError (List Char)) : FetchOut :=
  match watchPage with
  | .error e => ⟨.error e, none⟩
  | .ok site =>
    match minByKey sortKey (findMatches languages (timedtextSplits site)) with
    | none => ⟨.ok none, none⟩
    | some sel =>
      match apiResp sel with
      | .error e => ⟨.error e, some sel⟩
      | .ok resp => ⟨.ok (if resp.isEmpty then none else some resp), some sel⟩

/-- An XML element as exposed by the parsing capability
(`xml.etree.ElementTree`): a text content that may be wholly absent, and
an attribute mapping. -/
structure XmlElement where
  text : Option (List Char)
  attrib : List (List Char × List Char)
deriving DecidableEq

/-- Attribute lookup, `xml_element.attrib[k]` before the `KeyError` check. -/
def attrLookup (attrib : List (List Char × List Char)) (k : List Char) : Option (List Char) :=
  (attrib.find? (fun p => p.1 == k)).map (fun p => p.2)

/-- Digit-string value. -/
def natOfDigits (l : List Char) : Nat :=
  l.foldl (fun a c => a * 10 + (c.toNat - 48)) 0

/-- Python `float(s)` on the plain decimal numerals the timed-text format
uses: an optional sign, then digits with an optional point, at least one
digit overall.  Returns `none` exactly when `float` raises `ValueError`
on such strings. -/
def pyFloatCore (s : List Char) : Option ℚ :=
  let intPart := s.takeWhile (fun c => c ≠ '.')
  let rest := s.dropWhile (fun c => c ≠ '.')
  match rest with
  | [] =>
    if intPart.all Char.isDigit ∧ intPart ≠ [] then some (natOfDigits intPart) else none
  | _ :: frac =>
    if intPart.all Char.isDigit ∧ frac.all Char.isDigit ∧ (intPart ≠ [] ∨ frac ≠ []) then
      some ((natOfDigits intPart : ℚ) + (natOfDigits frac : ℚ) / ((10 : ℚ) ^ frac.length))
    else none

/-- Python `float(s)` with an optional leading sign. -/
def pyFloat : List Char → Option ℚ
  | '-' :: rest => (pyFloatCore rest).map Neg.neg
  | '+' :: rest => pyFloatCore rest
  | s => pyFloatCore s

/-- Evaluation of `float(xml_element.attrib[k])`: a missing key raises
`KeyError`, a non-numeric value raises `ValueError`. -/
def floatAttr (e : XmlElement) (k : List Char) : Except PyError ℚ :=
  match attrLookup e.attrib k with
  | none => .error .keyError
  | some v =>
    match pyFloat v with
    | none => .error .valueError
    | some q => .ok q

/-- Modelled from the spec: the repository module `_html_unescaping`
(imported by `_api.py` but absent from src/) provides
`unescape(text) -> text with HTML entities resolved`; modelled here on
the five standard named/numeric entities. -/
def unescapeM : List Char → List Char
  | '&' :: 'a' :: 'm' :: 'p' :: ';' :: rest => '&' :: unescapeM rest
  | '&' :: 'l' :: 't' :: ';' :: rest => '<' :: unescapeM rest
  | '&' :: 'g' :: 't' :: ';' :: rest => '>' :: unescapeM rest
  | '&' :: 'q' :: 'u' :: 'o' :: 't' :: ';' :: rest => '"' :: unescapeM rest
  | '&' :: '#' :: '3' :: '9' :: ';' :: rest => '\'' :: unescapeM rest
  | c :: rest => c :: unescapeM rest
  | [] => []

/-- Index of the first `'>'`, if any. -/
def findGtIdx : List Char → Option Nat
  | [] => none
  | c :: rest => if c = '>' then some 0 else (findGtIdx rest).map (· + 1)

/-- Fuelled body of `re.sub(HTML_TAG_REGEX, '', s)` with
`HTML_TAG_REGEX = <[^>]*>` (IGNORECASE is irrelevant, the pattern has no
letters): each leftmost tag, from a `'<'` through the first following
`'>'`, is removed; a `'<'` with no later `'>'` never matches. -/
def stripTagsFuel : Nat → List Char → List Char
  | _, [] => []
  | 0, l => l
  | fuel + 1, c :: rest =>
    if c = '<' then
      match findGtIdx rest with
      | some k => stripTagsFuel fuel (rest.drop (k + 1))
      | none => c :: stripTagsFuel fuel rest
    else c :: stripTagsFuel fuel rest

/-- The `HTML_TAG_REGEX` removal of `_TranscriptParser.parse`. -/
def stripTags (l : List Char) : List Char :=
  stripTagsFuel l.length l

/-- The text pipeline of a parsed cue:
`re.sub(HTML_TAG_REGEX, '', unescape(xml_element.text))` — entities are
decoded first, tags are removed second. -/
def segText (t : List Char) : List Char :=
  stripTags (unescapeM t)

/-- One produced transcript segment:
`{'text': ..., 'start': ..., 'duration': ...}`. -/
structure Segment where
  text : List Char
  start : ℚ
  duration : ℚ
deriving DecidableEq

/-- Attribute keys `'start'` and `'dur'`. -/
def START_KEY : List Char := "start".data

/-- The `'dur'` attribute key. -/
def DUR_KEY : List Char := "dur".data

/-- The list comprehension of `_TranscriptParser.parse` over the parsed
elements: an element whose text is wholly absent is skipped; otherwise
its text is decoded and stripped and its `start` and `dur` attributes are
parsed as floats, a failure raising out of the comprehension. -/
def parseElements : List XmlElement → Except PyError (List Segment)
  | [] => .ok []
  | e :: rest =>
    match e.text with
    | none => parseElements rest
    | some t =>
      match floatAttr e START_KEY with
      | .error er => .error er
      | .ok s =>
        match floatAttr e DUR_KEY with
        | .error er => .error er
        | .ok d =>
          match parseElements rest with
          | .error er => .error er
          | .ok segs => .ok (⟨segText t, s, d⟩ :: segs)

/-- The segment an element contributes, if any: none when its text is
wholly absent or a timing attribute is missing or non-numeric. -/
def segOf (e : XmlElement) : Option Segment :=
  match e.text with
  | none => none
  | some t =>
    match floatAttr e START_KEY, floatAttr e DUR_KEY with
    | .ok s, .ok d => some ⟨segText t, s, d⟩
    | _, _ => none

/-- The `_TranscriptParser(plain_data).parse()` step of `get_transcript`:
`ElementTree.fromstring(None)` raises `TypeError` when the fetcher
returned `None`; otherwise the XML capability `xmlOf` parses the text
(raising on malformed XML) and the comprehension runs. -/
def parsePlain (xmlOf : List Char → Except PyError (List XmlElement)) :
    Option (List Char) → Except PyError (List Segment)
  | none => .error .typeError
  | some txt =>
    match xmlOf txt with
    | .error e => .error e
    | .ok els => parseElements els

/-- The facade `YouTubeTranscriptApi.get_transcript`: run fetcher then
parser; any raised exception is caught and re-raised as
`CouldNotRetrieveTranscript(video_id)`. -/
def get_transcript (video_id : List Char) (languages : List (List Char))
    (watchPage : Except PyError (List Char))
    (apiResp : List Char → Except PyError (List Char))
    (xmlOf : List Char → Except PyError (List XmlElement)) :
    Except DomainError (List Segment) :=
  match (fetch languages watchPage apiResp).result with
  | .error _ => .error (.couldNotRetrieveTranscript video_id)
  | .ok plain =>
    match parsePlain xmlOf plain with
    | .error _ => .error (.couldNotRetrieveTranscript video_id)
    | .ok segs => .ok segs

/-- Batch result of `get_transcripts`: the success mapping in insertion
order and the unretrievable ids in input order. -/
structure BatchResult where
  data : List (List Char × List Segment)
  unretrievable : List (List Char)
deriving DecidableEq

/-- The facade loop `YouTubeTranscriptApi.get_transcripts`, instrumented
with the list of video ids actually attempted (each loop iteration calls
`get_transcript` once).  `r` abstracts the single-video operation.  On a
failure with `continue_after_error` false the exception propagates and no
partial result is returned; with it true the failing id is appended to
the failure list and iteration continues. -/
def get_transcripts (r : List Char → Except DomainError (List Segment))
    (continue_after_error : Bool) :
    List (List Char) → Except DomainError BatchResult × List (List Char)
  | [] => (.ok ⟨[], []⟩, [])
  | v :: rest =>
    match r v with
    | .ok t =>
      let (res, att) := get_transcripts r continue_after_error rest
      (match res with
       | .ok b => .ok ⟨(v, t) :: b.data, b.unretrievable⟩
       | .error e => .error e,
       v :: att)
    | .error e =>
      if continue_after_error then
        let (res, att) := get_transcripts r continue_after_error rest
        (match res with
         | .ok b => .ok ⟨b.data, v :: b.unretrievable⟩
         | .error e2 => .error e2,
         v :: att)
      else (.error e, [v])

/-- The successful entries of the batch, in input order. -/
def okPairs (r : List Char → Except DomainError (List Segment)) :
    List (List Char) → List (List Char × List Segment)
  | [] => []
  | v :: rest =>
    match r v with
    | .ok t => (v, t) :: okPairs r rest
    | .error _ => okPairs r rest

/-- The failing ids of the batch, in input order. -/
def errIds (r : List Char → Except DomainError (List Segment)) :
    List (List Char) → List (List Char)
  | [] => []
  | v :: rest =>
    match r v with
    | .ok _ => errIds r rest
    | .error _ => v :: errIds r rest

/-! ### Helper lemmas -/

theorem containsL_nil_needle (hay : List Char) : containsL [] hay = true := by
  cases hay <;> simp [containsL, List.isPrefixOf]

theorem isPrefixOf_append_self (n post : List Char) : n.isPrefixOf (n ++ post) = true := by
  induction n with
  | nil => simp [List.isPrefixOf]
  | cons c n' ih => simp [List.isPrefixOf, ih]

theorem containsL_append_self (n pre post : List Char) :
    containsL n (pre ++ n ++ post) = true := by
  induction pre with
  | nil =>
    cases hn : n with
    | nil => simp [containsL_nil_needle]
    | cons c n' =>
      have := isPrefixOf_append_self (c :: n') post
      simp only [List.nil_append, List.cons_append]
      simp only [List.cons_append] at this
      simp [containsL, this]
  | cons c pre' ih =>
    simp only [List.cons_append, containsL]
    simp only [List.append_assoc] at ih ⊢
    simp [ih]

theorem minFold_spec (key : List Char → Nat) (xs : List (List Char)) : ∀ (x : List Char),
    ∃ pre suf, x :: xs = pre ++ minFold key x xs :: suf ∧
      (∀ y ∈ x :: xs, key (minFold key x xs) ≤ key y) ∧
      (∀ y ∈ pre, key (minFold key x xs) < key y) := by
  induction xs with
  | nil =>
    intro x
    refine ⟨[], [], rfl, ?_, by simp⟩
    intro y hy
    simp only [List.mem_singleton] at hy
    simp [hy, minFold]
  | cons y ys ih =>
    intro x
    have hfold : minFold key x (y :: ys) = minFold key (if key y < key x then y else x) ys := rfl
    by_cases h : key y < key x
    · rw [hfold, if_pos h]
      obtain ⟨pre, suf, hdec, hmin, hstrict⟩ := ih y
      refine ⟨x :: pre, suf, ?_, ?_, ?_⟩
      · rw [List.cons_append, ← hdec]
      · intro z hz
        rcases List.mem_cons.mp hz with rfl | hz'
        · have := hmin y (List.mem_cons_self _ _)
          omega
        · exact hmin z hz'
      · intro z hz
        rcases List.mem_cons.mp hz with rfl | hz'
        · have := hmin y (List.mem_cons_self _ _)
          omega
        · exact hstrict z hz'
    · rw [hfold, if_neg h]
      obtain ⟨pre, suf, hdec, hmin, hstrict⟩ := ih x
      cases pre with
      | nil =>
        simp only [List.nil_append, List.cons.injEq] at hdec
        refine ⟨[], y :: suf, ?_, ?_, by simp⟩
        · rw [List.nil_append, ← hdec.1, hdec.2]
        · intro z hz
          rcases List.mem_cons.mp hz with rfl | hz'
          · rw [← hdec.1]
          · rcases List.mem_cons.mp hz' with rfl | hz''
            · rw [← hdec.1]; omega
            · exact hmin z (List.mem_cons_of_mem _ hz'')
      | cons p pre' =>
        simp only [List.cons_append, List.cons.injEq] at hdec
        have hxp : x = p := hdec.1
        have hxpre : x ∈ p :: pre' := by simp [hxp]
        have hltx : key (minFold key x ys) < key x := hxp ▸ hstrict p (by simp)
        refine ⟨x :: y :: pre', suf, ?_, ?_, ?_⟩
        · simp only [List.cons_append, List.cons.injEq, true_and]
          exact hdec.2
        · intro z hz
          rcases List.mem_cons.mp hz with rfl | hz'
          · omega
          · rcases List.mem_cons.mp hz' with rfl | hz''
            · omega
            · exact hmin z (List.mem_cons_of_mem _ (hdec.2 ▸ hz''))
        · intro z hz
          rcases List.mem_cons.mp hz with rfl | hz'
          · omega
          · rcases List.mem_cons.mp hz' with rfl | hz''
            · omega
            · exact hstrict z (List.mem_cons_of_mem _ hz'')

theorem minByKey_spec (key : List Char → Nat) (x : List Char) (xs : List (List Char)) :
    ∃ m pre suf, minByKey key (x :: xs) = some m ∧ x :: xs = pre ++ m :: suf ∧
      (∀ y ∈ x :: xs, key m ≤ key y) ∧ (∀ y ∈ pre, key m < key y) := by
  obtain ⟨pre, suf, h1, h2, h3⟩ := minFold_spec key xs x
  exact ⟨minFold key x xs, pre, suf, rfl, h1, h2, h3⟩

theorem findMatches_cons_none (c : List Char) (rest frags : List (List Char))
    (h : ∀ f ∈ frags, langMatches c f = false) :
    findMatches (c :: rest) frags = findMatches rest frags := by
  have hnil : frags.filter (langMatches c) = [] := by
    rw [List.filter_eq_nil_iff]
    intro a ha
    simp [h a ha]
  simp [findMatches, hnil]

theorem findMatches_cons_match (c : List Char) (rest frags : List (List Char))
    (h : frags.filter (langMatches c) ≠ []) :
    findMatches (c :: rest) frags = frags.filter (langMatches c) := by
  simp only [findMatches]
  rw [if_neg]
  simpa [List.isEmpty_iff] using h

theorem findMatches_append_none (pre rest frags : List (List Char))
    (h : ∀ c ∈ pre, ∀ f ∈ frags, langMatches c f = false) :
    findMatches (pre ++ rest) frags = findMatches rest frags := by
  induction pre with
  | nil => rfl
  | cons c pre' ih =>
    rw [List.cons_append, findMatches_cons_none c _ _ (h c (by simp))]
    exact ih (fun c' hc' => h c' (by simp [hc']))

theorem findMatches_eq_nil (langs frags : List (List Char))
    (h : ∀ c ∈ langs, ∀ f ∈ frags, langMatches c f = false) :
    findMatches langs frags = [] := by
  have := findMatches_append_none langs [] frags h
  simpa using this

end YTA

namespace YTA

/-! ### Claim theorems -/

/-- C2: for every video id and every outcome of the network, locator and
parsing stages, `get_transcript` either succeeds or fails with exactly the
one error kind `CouldNotRetrieveTranscript` carrying the given video id;
no internal error kind escapes. -/
theorem get_transcript_single_error_kind (video_id : List Char)
    (languages : List (List Char)) (watchPage : Except PyError (List Char))
    (apiResp : List Char → Except PyError (List Char))
    (xmlOf : List Char → Except PyError (List XmlElement)) :
    (∃ segs, get_transcript video_id languages watchPage apiResp xmlOf = .ok segs) ∨
      get_transcript video_id languages watchPage apiResp xmlOf =
        .error (.couldNotRetrieveTranscript video_id) := by
  unfold get_transcript
  cases h : (fetch languages watchPage apiResp).result with
  | error e => right; rfl
  | ok plain =>
    cases h2 : parsePlain xmlOf plain with
    | error e => right; simp [h2]
    | ok segs => left; exact ⟨segs, by simp [h2]⟩

/-- C8: the parsed cue text is obtained by decoding HTML entities first
and removing angle-bracket tags second: the text content
`<b>hello</b> &amp; world` parses to `hello & world`, and entity-encoded
angle brackets become real tags that are then removed (`&lt;b&gt;hello`
ends up as `hello`, which the reverse order would leave as `<b>hello`). -/
theorem unescape_then_strip :
    parseElements
        [⟨some "<b>hello</b> &amp; world".data, [(START_KEY, "0".data), (DUR_KEY, "1".data)]⟩]
      = .ok [⟨"hello & world".data, 0, 1⟩] ∧
    segText "&lt;b&gt;hello".data = "hello".data := by
  constructor
  · decide
  · decide

/-- C10: a fragment is accepted as a candidate for a requested code
whenever `&lang=` followed by that code occurs anywhere in it as a
substring, whatever follows; in particular a fragment whose lang value
`en-GB` merely extends the requested `en` is accepted, and the fetcher
selects it. -/
theorem lang_match_is_substring :
    (∀ language pre post : List Char,
      langMatches language (pre ++ (LANG_MARK ++ language) ++ post) = true) ∧
    (langMatches "en".data "v=1&lang=en-GB".data = true ∧ "en-GB".data ≠ "en".data) ∧
    (fetch ["en".data] (.ok "xx\"timedtext?v=v=1&lang=en-GB\"yy".data)
        (fun _ => .ok "X".data)).apiRequest = some "v=1&lang=en-GB".data := by
  refine ⟨?_, by decide, by decide⟩
  intro language pre post
  unfold langMatches
  have := containsL_append_self (LANG_MARK ++ language) pre post
  simpa using this

theorem splitFuel_no_sep (sep : List Char) :
    ∀ (fuel : Nat) (hay acc : List Char), hay.length ≤ fuel →
      containsL sep hay = false → splitFuel sep fuel hay acc = [acc.reverse ++ hay] := by
  intro fuel
  induction fuel with
  | zero =>
    intro hay acc hlen hc
    have hnil : hay = [] := List.length_eq_zero.mp (Nat.le_zero.mp hlen)
    subst hnil
    simp [splitFuel]
  | succ n ih =>
    intro hay acc hlen hc
    cases hay with
    | nil => simp [splitFuel]
    | cons c rest =>
      rw [containsL, Bool.or_eq_false_iff] at hc
      rw [splitFuel, if_neg (by simp [hc.1])]
      rw [ih rest (c :: acc) (Nat.le_of_succ_le_succ hlen) hc.2]
      simp

theorem charIndex_eq_none_iff (q : Char) : ∀ (l : List Char), charIndex l q = none ↔ q ∉ l := by
  intro l
  induction l with
  | nil => simp [charIndex]
  | cons c rest ih =>
    by_cases h : c = q
    · subst h
      simp [charIndex]
    · rw [charIndex, if_neg h]
      have hmap : (charIndex rest q).map (· + 1) = none ↔ charIndex rest q = none := by
        cases charIndex rest q <;> simp
      rw [hmap, ih]
      simp only [List.mem_cons, not_or]
      exact ⟨fun hn => ⟨fun hq => h hq.symm, hn⟩, fun hp => hp.2⟩

theorem charIndex_take (q : Char) :
    ∀ (l : List Char) (k : Nat), charIndex l q = some k →
      l.take k = l.takeWhile (fun c => c ≠ q) := by
  intro l
  induction l with
  | nil => intro k h; simp [charIndex] at h
  | cons c rest ih =>
    intro k h
    by_cases hc : c = q
    · subst hc
      have h0 : k = 0 := by
        simp [charIndex] at h
        omega
      subst h0
      simp [List.takeWhile_cons]
    · rw [charIndex, if_neg hc] at h
      cases hr : charIndex rest q with
      | none => rw [hr] at h; simp [Option.map_none'] at h
      | some k' =>
        rw [hr] at h
        simp only [Option.map_some', Option.some.injEq] at h
        subst h
        rw [List.take_succ_cons, List.takeWhile_cons_of_pos (by simpa using hc), ih k' hr]

/-- Watch-page text with one `de` track and one `en` track, used to
instantiate the language-priority theorem. -/
def SITE_DE : List Char := "x\"timedtext?v=a&lang=en\"timedtext?v=b&lang=de\"".data

/-- Watch-page text with a single `en` track. -/
def SITE_EN : List Char := "x\"timedtext?v=a&lang=en\"".data

/-- C1: whenever every language before `c` in the preference list matches
no decoded fragment and `c` matches at least one, the fetcher's selection
is a fragment for `c` — it lies in the set of fragments matching `c`,
never in a lower-priority language's set — and the second request is
issued for exactly that fragment. -/
theorem track_selection_highest_priority (site : List Char) (pre post : List (List Char))
    (c : List Char) (api : List Char → Except PyError (List Char))
    (hpre : ∀ c' ∈ pre, ∀ f ∈ timedtextSplits site, langMatches c' f = false)
    (hc : ∃ f ∈ timedtextSplits site, langMatches c f = true) :
    ∃ sel, minByKey sortKey (findMatches (pre ++ c :: post) (timedtextSplits site)) = some sel ∧
      langMatches c sel = true ∧
      sel ∈ (timedtextSplits site).filter (langMatches c) ∧
      (fetch (pre ++ c :: post) (.ok site) api).apiRequest = some sel := by
  obtain ⟨f, hf, hlang⟩ := hc
  have hfilter : (timedtextSplits site).filter (langMatches c) ≠ [] := by
    intro hnil
    have := (List.filter_eq_nil_iff.mp hnil) f hf
    simp [hlang] at this
  have hfm : findMatches (pre ++ c :: post) (timedtextSplits site)
      = (timedtextSplits site).filter (langMatches c) := by
    rw [findMatches_append_none pre (c :: post) _ hpre]
    exact findMatches_cons_match c post _ hfilter
  obtain ⟨x, xs, hx⟩ := List.exists_cons_of_ne_nil hfilter
  obtain ⟨m, mpre, msuf, hmk, hdec, hmin, hstrict⟩ := minByKey_spec sortKey x xs
  have hmem : m ∈ (timedtextSplits site).filter (langMatches c) := by
    rw [hx, hdec]
    exact List.mem_append.mpr (Or.inr (List.mem_cons_self _ _))
  have hminEq : minByKey sortKey (findMatches (pre ++ c :: post) (timedtextSplits site))
      = some m := by
    rw [hfm, hx]
    exact hmk
  have hfe : fetch (pre ++ c :: post) (.ok site) api =
      match minByKey sortKey (findMatches (pre ++ c :: post) (timedtextSplits site)) with
      | none => ⟨.ok none, none⟩
      | some sel =>
        match api sel with
        | .error e => ⟨.error e, some sel⟩
        | .ok resp => ⟨.ok (if resp.isEmpty then none else some resp), some sel⟩ := rfl
  refine ⟨m, hminEq, (List.mem_filter.mp hmem).2, hmem, ?_⟩
  rw [hfe, hminEq]
  cases hapi : api m <;> simp [hapi]

/-- Witness for the language-priority theorem on a page carrying one
`de` and one `en` track, requested as `[fr, de, en]`: the selection is
the `de` fragment. -/
theorem track_selection_highest_priority_witness :
    (∀ c' ∈ [("fr".data)], ∀ f ∈ timedtextSplits SITE_DE, langMatches c' f = false) ∧
    (∃ f ∈ timedtextSplits SITE_DE, langMatches "de".data f = true) ∧
    ∃ sel, minByKey sortKey
        (findMatches (["fr".data] ++ "de".data :: ["en".data]) (timedtextSplits SITE_DE))
        = some sel ∧
      langMatches "de".data sel = true ∧
      sel ∈ (timedtextSplits SITE_DE).filter (langMatches "de".data) ∧
      (fetch (["fr".data] ++ "de".data :: ["en".data]) (.ok SITE_DE)
        (fun _ => .ok "X".data)).apiRequest = some sel :=
  ⟨by decide, by decide,
    track_selection_highest_priority SITE_DE ["fr".data] ["en".data] "de".data _
      (by decide) (by decide)⟩

/-- C3 counterexample: on the page text `A&lang=en"timedtext?v=B&lang=de"`
the leading chunk `A&lang=en"`, which precedes the first marker
occurrence, is decoded and matched during language filtering — the split
carries no `[1:]` — and for the request `[en]` it is the fragment the
fetcher selects, while the claim says it is discarded and never
considered. -/
theorem first_chunk_considered_cx :
    timedtextSplits "A&lang=en\"timedtext?v=B&lang=de\"".data
      = ["A&lang=en".data, "B&lang=de".data] ∧
    findMatches ["en".data] (timedtextSplits "A&lang=en\"timedtext?v=B&lang=de\"".data)
      = ["A&lang=en".data] ∧
    (fetch ["en".data] (.ok "A&lang=en\"timedtext?v=B&lang=de\"".data)
      (fun _ => .ok "X".data)).apiRequest = some "A&lang=en".data := by
  constructor
  · decide
  constructor
  · decide
  · decide

/-- C3 amended: splitting on the marker discards no chunk — the leading
chunk preceding the first marker occurrence is decoded and considered as
a candidate fragment like every other chunk; in particular a page text
containing no marker occurrence at all yields exactly its own decoded
text as the single candidate. -/
theorem all_chunks_are_candidates (site : List Char)
    (h : containsL TIMEDTEXT site = false) :
    timedtextSplits site = [decodeSplit site] := by
  unfold timedtextSplits splitOnL
  rw [splitFuel_no_sep TIMEDTEXT site.length site [] le_rfl h]
  simp

/-- Witness: a marker-free page text is itself the single candidate. -/
theorem all_chunks_are_candidates_witness :
    containsL TIMEDTEXT "A&lang=en".data = false ∧
    timedtextSplits "A&lang=en".data = [decodeSplit "A&lang=en".data] :=
  ⟨by decide, all_chunks_are_candidates "A&lang=en".data (by decide)⟩

/-- C4 counterexample: the chunk `abc` contains no quote character, yet
the code keeps `ab`, not the whole chunk: `split.find` returns `-1` and
the slice `split[:-1]` drops the final character. -/
theorem no_quote_chunk_cx :
    '"' ∉ "abc".data ∧
    pyTruncQuote "abc".data = "ab".data ∧
    pyTruncQuote "abc".data ≠ "abc".data := by
  refine ⟨by decide, by decide, by decide⟩

/-- C4 amended: a chunk containing no quote character is truncated by
exactly one character — `find` returns `-1`, and the Python slice up to
`-1` keeps the chunk minus its final character — while truncation at the
first quote happens exactly when a quote character is present. -/
theorem trunc_quote_behavior :
    (∀ l : List Char, '"' ∉ l → pyTruncQuote l = l.dropLast) ∧
    (∀ l : List Char, '"' ∈ l → pyTruncQuote l = l.takeWhile (fun c => c ≠ '"')) := by
  constructor
  · intro l h
    have hnone : charIndex l '"' = none := (charIndex_eq_none_iff '"' l).mpr h
    have hfind : pyFind l '"' = -1 := by
      unfold pyFind
      rw [hnone]
    unfold pyTruncQuote
    rw [hfind]
    unfold pySliceTo
    rw [if_pos (by norm_num)]
    rw [List.dropLast_eq_take]
    congr 1
    omega
  · intro l h
    cases hk : charIndex l '"' with
    | none => exact absurd ((charIndex_eq_none_iff '"' l).mp hk) (by simp [h])
    | some k =>
      have hfind : pyFind l '"' = (k : Int) := by
        unfold pyFind
        rw [hk]
      unfold pyTruncQuote
      rw [hfind]
      unfold pySliceTo
      rw [if_neg (by omega)]
      have htn : ((k : Int)).toNat = k := rfl
      rw [htn]
      exact charIndex_take '"' l k hk

/-- Witness for the truncation behavior at a quote-free and a
quote-bearing chunk. -/
theorem trunc_quote_behavior_witness :
    ('"' ∉ "abc".data ∧ pyTruncQuote "abc".data = "abc".data.dropLast) ∧
    ('"' ∈ "a\"b".data ∧
      pyTruncQuote "a\"b".data = "a\"b".data.takeWhile (fun c => c ≠ '"')) :=
  ⟨⟨by decide, trunc_quote_behavior.1 "abc".data (by decide)⟩,
   ⟨by decide, trunc_quote_behavior.2 "a\"b".data (by decide)⟩⟩

/-- C5: the selection among the matched fragments is by Python `min` with
the `_sort_splits` key — the stripped-length-minimal fragment wins and a
tie goes to the earliest in original order (strictly smaller keys before
it) — and of two fragments for one language, the one without a `name=`
parameter is preferred when structurally shorter after stripping. -/
theorem min_split_selection :
    (∀ (x : List Char) (xs : List (List Char)),
      ∃ m pre suf, minByKey sortKey (x :: xs) = some m ∧ x :: xs = pre ++ m :: suf ∧
        (∀ y ∈ x :: xs, sortKey m ≤ sortKey y) ∧ (∀ y ∈ pre, sortKey m < sortKey y)) ∧
    minByKey sortKey ["v=X&name=Foo&lang=en&extra=1".data, "v=X&lang=en".data]
      = some "v=X&lang=en".data :=
  ⟨fun x xs => minByKey_spec sortKey x xs, by decide⟩

/-- C9: when no decoded fragment matches any requested language the fetch
returns not-found with no second request; when a fragment is selected and
the second response succeeds, an empty body yields not-found and a
non-empty body is returned as the raw XML text. -/
theorem fetch_not_found_behavior (langs : List (List Char)) (site : List Char)
    (api : List Char → Except PyError (List Char)) :
    ((∀ lang ∈ langs, ∀ f ∈ timedtextSplits site, langMatches lang f = false) →
      fetch langs (.ok site) api = ⟨.ok none, none⟩) ∧
    (∀ sel resp, minByKey sortKey (findMatches langs (timedtextSplits site)) = some sel →
      api sel = .ok resp →
      fetch langs (.ok site) api
        = ⟨.ok (if resp.isEmpty then none else some resp), some sel⟩) := by
  have hfe : fetch langs (.ok site) api =
      match minByKey sortKey (findMatches langs (timedtextSplits site)) with
      | none => ⟨.ok none, none⟩
      | some sel =>
        match api sel with
        | .error e => ⟨.error e, some sel⟩
        | .ok resp => ⟨.ok (if resp.isEmpty then none else some resp), some sel⟩ := rfl
  constructor
  · intro h
    rw [hfe, findMatches_eq_nil langs _ h]
    rfl
  · intro sel resp h1 h2
    rw [hfe, h1]
    simp [h2]

/-- C6: processing a batch in input order, with `continue_after_error`
false the first failing video id propagates its failure, no partial
result is returned and no later id is attempted (the attempted list stops
at the failing id); with it true each failing id joins the failure list
in input order, iteration continues, and successes are recorded in input
order. -/
theorem batch_semantics (r : List Char → Except DomainError (List Segment)) :
    (∀ (pre post : List (List Char)) (v : List Char) (e : DomainError),
      (∀ u ∈ pre, ∃ t, r u = .ok t) → r v = .error e →
      get_transcripts r false (pre ++ v :: post) = (.error e, pre ++ [v])) ∧
    (∀ ids : List (List Char),
      get_transcripts r true ids = (.ok ⟨okPairs r ids, errIds r ids⟩, ids)) := by
  constructor
  · intro pre post v e hpre hv
    induction pre with
    | nil => simp [get_transcripts, hv]
    | cons u pre' ih =>
      obtain ⟨t, ht⟩ := hpre u (by simp)
      have ih' := ih (fun u' hu' => hpre u' (by simp [hu']))
      simp only [List.cons_append, get_transcripts, ht, List.append_eq, ih']
  · intro ids
    induction ids with
    | nil => rfl
    | cons v rest ih =>
      cases hv : r v with
      | ok t => simp [get_transcripts, okPairs, errIds, hv, ih]
      | error e => simp [get_transcripts, okPairs, errIds, hv, ih]

/-- The domain failure used to instantiate the batch theorem. -/
def E6 : DomainError := .couldNotRetrieveTranscript "v1".data

/-- A single-video oracle on which `v1` fails and every other id
succeeds with an empty transcript. -/
def R6 : List Char → Except DomainError (List Segment) :=
  fun v => if v = "v1".data then .error E6 else .ok []

/-- Witness for the batch semantics on `[v1, v2]` where `v1` fails:
without continue-after-error the batch propagates `v1`'s failure having
attempted only `v1`; with it the batch returns `v2`'s transcript and the
failure list `[v1]`. -/
theorem batch_semantics_witness :
    ((∀ u ∈ ([] : List (List Char)), ∃ t, R6 u = .ok t) ∧ R6 "v1".data = .error E6 ∧
      get_transcripts R6 false (([] : List (List Char)) ++ "v1".data :: ["v2".data])
        = (.error E6, [] ++ ["v1".data])) ∧
    get_transcripts R6 true ["v1".data, "v2".data]
      = (.ok ⟨[("v2".data, [])], ["v1".data]⟩, ["v1".data, "v2".data]) :=
  ⟨⟨by simp, by decide,
    (batch_semantics R6).1 [] ["v2".data] "v1".data E6 (by simp) (by decide)⟩,
   ((batch_semantics R6).2 ["v1".data, "v2".data]).trans (by decide)⟩

/-- Whether a timing-attribute evaluation succeeded (the attribute is
present and numeric). -/
def exceptOk : Except PyError ℚ → Bool
  | .ok _ => true
  | .error _ => false

/-- C7: over any child list whose non-null-text elements all carry
present, numeric `start` and `dur` attributes, the comprehension yields
exactly the segments of the non-null-text elements in document order —
so with N such elements it yields exactly N segments — and an element
whose text content is wholly absent contributes no segment and can be
elided from the input without changing the output. -/
theorem timed_text_segments :
    (∀ els : List XmlElement,
      (∀ e ∈ els, e.text.isSome = true →
        exceptOk (floatAttr e START_KEY) = true ∧ exceptOk (floatAttr e DUR_KEY) = true) →
      parseElements els = .ok (els.filterMap segOf) ∧
        (els.filterMap segOf).length = (els.filter (fun e => e.text.isSome)).length) ∧
    (∀ (pre post : List XmlElement) (e : XmlElement), e.text = none →
      parseElements (pre ++ e :: post) = parseElements (pre ++ post)) := by
  constructor
  · intro els h
    induction els with
    | nil => exact ⟨rfl, rfl⟩
    | cons e rest ih =>
      have hrest := ih (fun e' he' hs => h e' (by simp [he']) hs)
      cases he : e.text with
      | none =>
        have hseg : segOf e = none := by simp [segOf, he]
        constructor
        · simp only [parseElements, he, List.filterMap_cons, hseg]
          exact hrest.1
        · simp only [List.filterMap_cons, hseg, List.filter_cons, he, Option.isSome_none,
            Bool.false_eq_true, if_false]
          exact hrest.2
      | some t =>
        obtain ⟨hs, hd⟩ := h e (by simp) (by simp [he])
        cases hfs : floatAttr e START_KEY with
        | error er => rw [hfs] at hs; simp [exceptOk] at hs
        | ok s =>
          cases hfd : floatAttr e DUR_KEY with
          | error er => rw [hfd] at hd; simp [exceptOk] at hd
          | ok d =>
            have hseg : segOf e = some ⟨segText t, s, d⟩ := by
              simp [segOf, he, hfs, hfd]
            constructor
            · simp only [parseElements, he, hfs, hfd, hrest.1, List.filterMap_cons, hseg]
            · simp only [List.filterMap_cons, hseg, List.filter_cons, he, Option.isSome_some,
                if_true, List.length_cons]
              rw [hrest.2]
  · intro pre post e he
    induction pre with
    | nil => simp [parseElements, he]
    | cons p pre' ih =>
      simp only [List.cons_append, parseElements, List.append_eq]
      rw [ih]

/-- Child elements instantiating the comprehension theorem. -/
def E7a : XmlElement := ⟨some "a".data, [(START_KEY, "0".data), (DUR_KEY, "1".data)]⟩

/-- A child element with wholly absent text content. -/
def E7n : XmlElement := ⟨none, []⟩

/-- A second well-attributed child element. -/
def E7b : XmlElement := ⟨some "b".data, [(START_KEY, "1.5".data), (DUR_KEY, "2".data)]⟩

/-- Witness for the comprehension theorem on a three-element document
whose middle element has absent text. -/
theorem timed_text_segments_witness :
    ((∀ e ∈ [E7a, E7n, E7b], e.text.isSome = true →
        exceptOk (floatAttr e START_KEY) = true ∧ exceptOk (floatAttr e DUR_KEY) = true) ∧
      parseElements [E7a, E7n, E7b] = .ok ([E7a, E7n, E7b].filterMap segOf) ∧
      ([E7a, E7n, E7b].filterMap segOf).length
        = ([E7a, E7n, E7b].filter (fun e => e.text.isSome)).length) ∧
    (E7n.text = none ∧
      parseElements ([E7a] ++ E7n :: [E7b]) = parseElements ([E7a] ++ [E7b])) :=
  ⟨⟨by decide, (timed_text_segments.1 [E7a, E7n, E7b] (by decide)).1,
      (timed_text_segments.1 [E7a, E7n, E7b] (by decide)).2⟩,
   ⟨rfl, timed_text_segments.2 [E7a] [E7b] E7n rfl⟩⟩

/-- Witness for the not-found behavior: an unmatched language issues no
second request; a matched one returns the non-empty second body. -/
theorem fetch_not_found_behavior_witness :
    ((∀ lang ∈ [("fr".data)], ∀ f ∈ timedtextSplits SITE_EN, langMatches lang f = false) ∧
      fetch [("fr".data)] (.ok SITE_EN) (fun _ => .ok "X".data) = ⟨.ok none, none⟩) ∧
    (minByKey sortKey (findMatches [("en".data)] (timedtextSplits SITE_EN))
        = some "a&lang=en".data ∧
      fetch [("en".data)] (.ok SITE_EN) (fun _ => .ok "X".data)
        = ⟨.ok (some "X".data), some "a&lang=en".data⟩) :=
  ⟨⟨by decide, (fetch_not_found_behavior [("fr".data)] SITE_EN _).1 (by decide)⟩,
   ⟨by decide,
    ((fetch_not_found_behavior [("en".data)] SITE_EN _).2 "a&lang=en".data "X".data
      (by decide) (by decide)).trans (by decide)⟩⟩

end YTA
